import Mathlib

/-!
Verification of the availability-extraction core of the clinic scraper
(src/lib/aspit-scraper.ts).  The JavaScript functions
`parseAvailabilityFromResponses`, `extractSlotsFromObject`, the network
capture handler, the Vercel demonstration fallback and `navigateToMonth`
are shallowly embedded as executable Lean definitions over a JSON value
type, and the specified properties are settled against them.

Modelling conventions, stated once here:
. JSON numbers are modelled as integers (every numeric literal relevant to
  the claims is an integer).
. JavaScript exceptions thrown inside the per-response try blocks are
  modelled with `Except Unit`; a thrown step keeps the state mutated so far,
  mirroring JavaScript's in-place pushes.
. `String.prototype.localeCompare` is modelled as lexicographic code-point
  comparison, the behaviour on the ASCII date/time strings the pipeline
  produces.
. `new Date(s).toISOString()` is modelled for ISO-8601 UTC timestamps and
  plain dates; other formats (numeric epochs, offset timezones, locale
  formats) are outside the model and are treated as the throwing
  Invalid-Date case.
. The TypeScript interfaces declare `date`, `time`, `doctor` as strings, so
  fields copied verbatim out of JSON are taken only when they are JSON
  strings; a non-string in such a position is outside the model.
-/

/-- A JSON value as delivered by `response.json()`.  Object fields keep
their textual order; numbers are modelled as integers. -/
inductive Json where
  | null : Json
  | bool : Bool → Json
  | num : Int → Json
  | str : String → Json
  | arr : List Json → Json
  | obj : List (String × Json) → Json
deriving Repr

/-- First binding of a key in an object's field list (JavaScript property
lookup on a parsed JSON object). -/
def getEntry : List (String × Json) → String → Option Json
  | [], _ => none
  | (k', v) :: rest, k => if k' = k then some v else getEntry rest k

/-- JavaScript property access `v[k]`: a lookup on objects, `undefined`
(here `none`) on every other defined value. -/
def Json.getF : Json → String → Option Json
  | .obj fields, k => getEntry fields k
  | _, _ => none

/-- JavaScript truthiness of a defined value. -/
def truthy : Json → Bool
  | .null => false
  | .bool b => b
  | .num n => n != 0
  | .str s => s != ""
  | .arr _ => true
  | .obj _ => true

/-- Truthiness of a possibly-`undefined` value. -/
def truthyO : Option Json → Bool
  | some v => truthy v
  | none => false

/-- Test for `typeof v === 'object'` on a defined non-null JSON value
(arrays included). -/
def typeofObject : Json → Bool
  | .arr _ => true
  | .obj _ => true
  | _ => false

/-- JavaScript string coercion `String(v)` of a defined value.  Array
elements render recursively, joined by commas, with null elements rendered
empty, as `Array.prototype.toString` does. -/
def jsToString : Json → String
  | .null => "null"
  | .bool true => "true"
  | .bool false => "false"
  | .num n => toString n
  | .str s => s
  | .arr xs => joinElems xs
  | .obj _ => "[object Object]"
where
  /-- Comma-join of array elements under string coercion; null elements
  render empty, as in `Array.prototype.join`. -/
  joinElems : List Json → String
    | [] => ""
    | [.null] => ""
    | [x] => jsToString x
    | .null :: r => "," ++ joinElems r
    | x :: r => jsToString x ++ "," ++ joinElems r

/-- String coercion of a possibly-`undefined` value: `undefined` renders
as the literal string so that template literals and object-key coercion
match JavaScript. -/
def jsToStringU : Option Json → String
  | none => "undefined"
  | some v => jsToString v

/-- A truthy JSON string, if the value is one.  Used where the source
copies a JSON field verbatim into a TypeScript `string` field. -/
def asTruthyStr : Option Json → Option String
  | some (.str s) => if s = "" then none else some s
  | _ => none

/-- Code-point comparison of characters. -/
def charLt (a b : Char) : Bool := a.toNat < b.toNat

/-- Lexicographic code-point comparison of character lists. -/
def chLt : List Char → List Char → Bool
  | [], [] => false
  | [], _ :: _ => true
  | _ :: _, [] => false
  | a :: as, b :: bs => if a = b then chLt as bs else charLt a b

/-- Model of `a.localeCompare(b) < 0`: lexicographic code-point order. -/
def strLt (a b : String) : Bool := chLt a.toList b.toList

/-- Model of `a.localeCompare(b) <= 0`. -/
def strLe (a b : String) : Bool := !(strLt b a)

/-- A decimal digit character. -/
def isDigitCh (c : Char) : Bool := 47 < c.toNat && c.toNat < 58

/-- Numeric value of a digit character. -/
def digitVal (c : Char) : Nat := c.toNat - 48

/-- Seconds-and-milliseconds tail of an ISO timestamp: the closing Z, or
colon seconds then the closing Z with optional three millisecond digits. -/
def validSecondsChars : List Char → Bool
  | ['Z'] => true
  | ':' :: s1 :: s2 :: rest =>
    isDigitCh s1 && isDigitCh s2 && 10 * digitVal s1 + digitVal s2 < 60 &&
      (match rest with
       | ['Z'] => true
       | '.' :: a :: b :: c :: ['Z'] => isDigitCh a && isDigitCh b && isDigitCh c
       | _ => false)
  | _ => false

/-- Time-of-day part of an ISO timestamp after the date separator. -/
def validTimeChars : List Char → Bool
  | h1 :: h2 :: ':' :: m1 :: m2 :: rest =>
    isDigitCh h1 && isDigitCh h2 && 10 * digitVal h1 + digitVal h2 < 24 &&
      isDigitCh m1 && isDigitCh m2 && 10 * digitVal m1 + digitVal m2 < 60 &&
      validSecondsChars rest
  | _ => false

/-- An ISO-8601 UTC timestamp or plain ISO date, the formats in the
model of the JavaScript date parser. -/
def isIsoDateTimeChars : List Char → Bool
  | y1 :: y2 :: y3 :: y4 :: '-' :: m1 :: m2 :: '-' :: d1 :: d2 :: rest =>
    isDigitCh y1 && isDigitCh y2 && isDigitCh y3 && isDigitCh y4 &&
      isDigitCh m1 && isDigitCh m2 && isDigitCh d1 && isDigitCh d2 &&
      1 ≤ 10 * digitVal m1 + digitVal m2 && 10 * digitVal m1 + digitVal m2 ≤ 12 &&
      1 ≤ 10 * digitVal d1 + digitVal d2 && 10 * digitVal d1 + digitVal d2 ≤ 31 &&
      (match rest with
       | [] => true
       | 'T' :: tr => validTimeChars tr
       | _ => false)
  | _ => false

/-- Model of the date normalisation at source lines 556-557 and 620-621:
`new Date(v).toISOString().split('T')[0]`.  Valid inputs yield the ten
character date prefix; anything else is the throwing Invalid-Date case. -/
def jsDateToIsoDate (v : Json) : Except Unit String :=
  match v with
  | .str s => if isIsoDateTimeChars s.toList then .ok (String.mk (s.toList.take 10)) else .error ()
  | _ => .error ()

/-- A slot as produced by the extractor (TypeScript interface
`AvailabilitySlot`, source lines 5-9). -/
structure AvailabilitySlot where
  date : String
  time : String
  doctor : Option String
deriving DecidableEq, Repr

/-- The own property names of `Object.prototype` (ECMA-262, Annex B
included).  The per-date counting object at source lines 453-459 and the
count read at line 463 are plain `{}`-backed lookups, so a date string
equal to one of these names hits the prototype chain instead of behaving
like a fresh key. -/
def objectProtoProps : List String :=
  ["constructor", "hasOwnProperty", "isPrototypeOf", "propertyIsEnumerable",
   "toLocaleString", "toString", "valueOf", "__proto__",
   "__defineGetter__", "__defineSetter__", "__lookupGetter__", "__lookupSetter__"]

/-- A runtime count value of the availability pipeline.  The TypeScript
type says `number`, but the `{}`-backed counting of source lines 453-459
can store NaN (incrementing an inherited `Object.prototype` member), and
the `|| 0` read at line 463 can pass the inherited member itself through
as the count; `protoVal s` stands for the inherited `Object.prototype`
member named `s`. -/
inductive JsCount where
  | nat : Nat → JsCount
  | nan : JsCount
  | protoVal : String → JsCount
deriving DecidableEq, Repr

/-- A date with its slot count (TypeScript interface `AvailableDate`,
source lines 11-14); the count field carries the runtime count value. -/
structure AvailableDate where
  date : String
  count : JsCount
deriving DecidableEq, Repr

/-- The pair returned by `parseAvailabilityFromResponses`. -/
structure ParsedAvailability where
  slots : List AvailabilitySlot
  availableDates : List AvailableDate
deriving DecidableEq, Repr

/-- Assignment into the doctor map (JavaScript object assignment: update
in place when the key exists, append otherwise).  Assigning under the key
`__proto__` hits the inherited accessor, which ignores a string value, so
nothing is stored. -/
def dmAssign (dm : List (String × String)) (k : String) (v : String) :
    List (String × String) :=
  if k = "__proto__" then dm else go dm k v
where
  /-- Plain own-property update-or-append. -/
  go : List (String × String) → String → String → List (String × String)
    | [], k, v => [(k, v)]
    | (k', v') :: rest, k, v =>
      if k' = k then (k', v) :: rest else (k', v') :: go rest k v

/-- Own-property lookup in the doctor map.  A practitioner id whose
coerced key collides with another inherited `Object.prototype` member
(such as `constructor`) would really read that inherited non-string value
at source line 563; such ids are outside the model. -/
def dmLookup (dm : List (String × String)) (k : String) : Option String :=
  (dm.find? (fun p => p.1 = k)).map (·.2)

/-- The JavaScript `a || b` fallback on an optional string against a
default, with the empty string falsy. -/
def jsOrString (a : Option String) (b : String) : String :=
  match a with
  | some s => if s = "" then b else s
  | none => b

/-- One practitioner-listing loop of pass one (source lines 354-369): add
identifier-to-name bindings for the given id and name keys.  The returned
flag records a thrown property access on a null element, which aborts the
rest of this response's pass-one processing (caught at line 385). -/
def addDirectoryEntries (idKey nameKey : String) :
    List (String × String) → List Json → List (String × String) × Bool
  | dm, [] => (dm, false)
  | dm, t :: rest =>
    match t with
    | .null => (dm, true)
    | _ =>
      let dm' :=
        match t.getF idKey, t.getF nameKey with
        | some oid, some nm =>
          if truthy oid && truthy nm then
            match nm with
            | .str s => dmAssign dm (jsToString oid) s
            | _ => dm
          else dm
        | _, _ => dm
      addDirectoryEntries idKey nameKey dm' rest

/-- The Doctors section of pass one (source lines 363-369). -/
def doctorsSection (dm : List (String × String)) (data : Json) : List (String × String) :=
  if truthy data then
    match data.getF "Doctors" with
    | some (.arr items) => (addDirectoryEntries "id" "name" dm items).1
    | _ => dm
  else dm

/-- One response of pass one (source lines 348-388). -/
def buildDoctorMapStep (dm : List (String × String)) (data : Json) : List (String × String) :=
  if truthy data then
    match data.getF "Therapists" with
    | some (.arr items) =>
      let r := addDirectoryEntries "Oid" "Name" dm items
      if r.2 then r.1 else doctorsSection r.1 data
    | _ => doctorsSection dm data
  else dm

/-- Pass one of `parseAvailabilityFromResponses`: the doctor directory. -/
def buildDoctorMap (responses : List Json) : List (String × String) :=
  responses.foldl buildDoctorMapStep []

/-- Doctor attribution used by the duration-slot and Start/TimeSlot
branches (source lines 563 and 626): the map entry for the coerced User
field, else the placeholder built from the same field. -/
def doctorFromUser (u : Option Json) (dm : List (String × String)) : String :=
  jsOrString (dmLookup dm (jsToStringU u)) ("User " ++ jsToStringU u)

/-- First truthy value among the given fields of an object, as a string
(the `a || b || c` doctor chains of the extractor). -/
def jsOrChain (v : Json) : List String → Option String
  | [] => none
  | k :: rest =>
    match v.getF k with
    | some w => if truthy w then asTruthyStr (some w) else jsOrChain v rest
    | none => jsOrChain v rest

/-- The inner TimeSlots loop of the DurationTimeSlots branch (source lines
554-567).  A null element throws on property access. -/
def timeSlotsLoop (doc : String) : List Json → Except Unit (List AvailabilitySlot)
  | [] => .ok []
  | t :: rest =>
    match t with
    | .null => .error ()
    | _ => do
      let here ←
        if truthyO (t.getF "Start") && truthyO (t.getF "TimeSlot") then do
          let dateStr ← jsDateToIsoDate ((t.getF "Start").getD .null)
          Except.ok
            (match t.getF "TimeSlot" with
             | some (.str ts) => [⟨dateStr, ts, some doc⟩]
             | _ => [])
        else Except.ok []
      let more ← timeSlotsLoop doc rest
      Except.ok (here ++ more)

/-- The outer DurationTimeSlots loop (source lines 552-568).  The doctor
string is computed from the containing object's User field, exactly as the
source does at line 563. -/
def durationSlotsLoop (doc : String) : List Json → Except Unit (List AvailabilitySlot)
  | [] => .ok []
  | ds :: rest =>
    match ds with
    | .null => .error ()
    | _ => do
      let here ←
        match ds.getF "TimeSlots" with
        | some (.arr ts) => timeSlotsLoop doc ts
        | _ => Except.ok []
      let more ← durationSlotsLoop doc rest
      Except.ok (here ++ more)

/-- An explicit available-slots style loop (source lines 572-581, 585-594
and 598-607), parametrised by the date, time and doctor key spellings. -/
def availSlotsLoop (dateKey timeKey : String) (docKeys : List String) :
    List Json → Except Unit (List AvailabilitySlot)
  | [] => .ok []
  | s :: rest =>
    match s with
    | .null => .error ()
    | _ => do
      let here :=
        if truthyO (s.getF dateKey) && truthyO (s.getF timeKey) then
          match asTruthyStr (s.getF dateKey), asTruthyStr (s.getF timeKey) with
          | some d, some t => [(⟨d, t, jsOrChain s docKeys⟩ : AvailabilitySlot)]
          | _, _ => []
        else []
      let more ← availSlotsLoop dateKey timeKey docKeys rest
      Except.ok (here ++ more)

/-- The JavaScript `a || b` on possibly-undefined values under truthiness. -/
def jsOr2 (a b : Option Json) : Option Json :=
  if truthyO a then a else b

/-- The schema-tolerant recursive extractor (source lines 542-659).  The
branches appear in source order; iterating the elements of the
`availableSlots` and `appointments` containers equals recursing on the
array node itself, which is how those two loops are rendered here. -/
def extractSlotsFromObject : Json → String → List (String × String) →
    Except Unit (List AvailabilitySlot)
  | .arr items, path, doctorMap => extractArrayItems items path doctorMap
  | .obj fields, path, doctorMap => do
    let s1 ←
      match getEntry fields "DurationTimeSlots" with
      | some (.arr ds) =>
        durationSlotsLoop (doctorFromUser (getEntry fields "User") doctorMap) ds
      | _ => Except.ok []
    let s2 ←
      match getEntry fields "AvailableSlots" with
      | some (.arr l) => availSlotsLoop "Date" "Time" ["Doctor", "Therapist", "Practitioner"] l
      | _ => Except.ok []
    let s3 ←
      match getEntry fields "Data" with
      | some dv =>
        if truthy dv then
          match dv.getF "AvailableSlots" with
          | some (.arr l) => availSlotsLoop "Date" "Time" ["Doctor", "Therapist", "Practitioner"] l
          | _ => Except.ok []
        else Except.ok []
      | none => Except.ok []
    let s4 ←
      match getEntry fields "Slots" with
      | some (.arr l) => availSlotsLoop "date" "time" ["doctor", "therapist", "practitioner"] l
      | _ => Except.ok []
    let s5 :=
      if truthyO (getEntry fields "date") && truthyO (getEntry fields "time") then
        [(⟨jsToStringU (getEntry fields "date"), jsToStringU (getEntry fields "time"),
           jsOrChain (Json.obj fields) ["doctor", "doctorName", "practitioner"]⟩ :
           AvailabilitySlot)]
      else []
    let s6 ←
      if truthyO (getEntry fields "Start") && truthyO (getEntry fields "TimeSlot") then do
        let dateStr ← jsDateToIsoDate ((getEntry fields "Start").getD .null)
        Except.ok
          [(⟨dateStr, jsToStringU (getEntry fields "TimeSlot"),
             some (doctorFromUser (getEntry fields "User") doctorMap)⟩ : AvailabilitySlot)]
      else Except.ok []
    let s7 :=
      if truthyO (getEntry fields "startTime") && truthyO (getEntry fields "endTime") then
        [(⟨jsToStringU (jsOr2 (getEntry fields "date") (getEntry fields "startDate")),
           jsToStringU (getEntry fields "startTime") ++ " - " ++
             jsToStringU (getEntry fields "endTime"),
           jsOrChain (Json.obj fields) ["doctor", "doctorName", "practitioner"]⟩ :
           AvailabilitySlot)]
      else []
    let s8 ← extractNamedArray "availableSlots" fields path doctorMap
    let s9 ← extractNamedArray "appointments" fields path doctorMap
    let s10 ← extractFields fields path doctorMap
    Except.ok (s1 ++ s2 ++ s3 ++ s4 ++ s5 ++ s6 ++ s7 ++ s8 ++ s9 ++ s10)
  | _, _, _ => .ok []
where
  /-- Element-wise extraction from an array node (source lines 545-548). -/
  extractArrayItems : List Json → String → List (String × String) →
      Except Unit (List AvailabilitySlot)
    | [], _, _ => .ok []
    | x :: r, path, doctorMap => do
      let a ← extractSlotsFromObject x path doctorMap
      let b ← extractArrayItems r path doctorMap
      Except.ok (a ++ b)
  /-- Element-wise extraction from a named array-valued field (source
  lines 638-648), walking the field list for structural recursion. -/
  extractNamedArray : String → List (String × Json) → String → List (String × String) →
      Except Unit (List AvailabilitySlot)
    | _, [], _, _ => .ok []
    | key, (k, v) :: r, path, doctorMap =>
      if k = key then
        match v with
        | .arr items => extractArrayItems items path doctorMap
        | _ => Except.ok []
      else extractNamedArray key r path doctorMap
  /-- Recursion into every object-valued field (source lines 651-655). -/
  extractFields : List (String × Json) → String → List (String × String) →
      Except Unit (List AvailabilitySlot)
    | [], _, _ => .ok []
    | (k, v) :: r, path, doctorMap => do
      let a ←
        match v with
        | .arr _ => extractSlotsFromObject v (path ++ "." ++ k) doctorMap
        | .obj _ => extractSlotsFromObject v (path ++ "." ++ k) doctorMap
        | _ => Except.ok []
      let b ← extractFields r path doctorMap
      Except.ok (a ++ b)

/-- Insertion into the `Set<string>` of available dates (insertion-ordered,
duplicates ignored). -/
def setAdd (set : List String) (s : String) : List String :=
  if set.contains s then set else set ++ [s]

/-- The possible-date-field spellings scanned by pass two (source line 402). -/
def dateFieldNames : List String :=
  ["AvailableDates", "availableDates", "dates", "Dates", "available_dates", "available-dates"]

/-- One date-field array (source lines 405-411): string items are added as
they are, object items contribute their truthy string `date` field. -/
def addDateItems : List String → List Json → List String
  | set, [] => set
  | set, item :: rest =>
    let set' :=
      match item with
      | .str s => setAdd set s
      | _ =>
        if truthy item then
          match asTruthyStr (item.getF "date") with
          | some d => setAdd set d
          | none => set
        else set
    addDateItems set' rest

/-- The date-field scan of pass two (source lines 402-413). -/
def collectDateFields (data : Json) (set : List String) : List String :=
  dateFieldNames.foldl
    (fun st f =>
      match data.getF f with
      | some (.arr items) => addDateItems st items
      | _ => st)
    set

/-- Date collection from a top-level AvailableSlots array (source lines
417-424), reading both Date and date.  The flag records a thrown property
access on a null element. -/
def addSlotDates : List String → List Json → List String × Bool
  | set, [] => (set, false)
  | set, s :: rest =>
    match s with
    | .null => (set, true)
    | _ =>
      let set1 :=
        match asTruthyStr (s.getF "Date") with
        | some d => setAdd set d
        | none => set
      let set2 :=
        match asTruthyStr (s.getF "date") with
        | some d => setAdd set1 d
        | none => set1
      addSlotDates set2 rest

/-- Date collection from a nested Data.AvailableSlots array (source lines
429-433), reading Date only. -/
def addSlotDatesUpper : List String → List Json → List String × Bool
  | set, [] => (set, false)
  | set, s :: rest =>
    match s with
    | .null => (set, true)
    | _ =>
      let set1 :=
        match asTruthyStr (s.getF "Date") with
        | some d => setAdd set d
        | none => set
      addSlotDatesUpper set1 rest

/-- The date-collection part of one pass-two response (source lines
402-434).  The nested Data.AvailableSlots loop has no array check, so a
truthy non-iterable there throws (flag true, caught at line 436); a string
iterates its characters and finds no Date fields. -/
def pass2Dates (data : Json) (set : List String) : List String × Bool :=
  let setA := collectDateFields data set
  let r :=
    match data.getF "AvailableSlots" with
    | some (.arr items) => addSlotDates setA items
    | _ => (setA, false)
  if r.2 then r
  else
    match data.getF "Data" with
    | some dv =>
      if truthy dv then
        match dv.getF "AvailableSlots" with
        | some av =>
          if truthy av then
            match av with
            | .arr items => addSlotDatesUpper r.1 items
            | .str _ => (r.1, false)
            | _ => (r.1, true)
          else (r.1, false)
        | none => (r.1, false)
      else (r.1, false)
    | none => (r.1, false)

/-- The accumulating state of pass two: raw slot pushes and the set of
directly-reported available dates. -/
structure ExtractAccum where
  slots : List AvailabilitySlot
  datesSet : List String
deriving Repr

/-- One response of pass two (source lines 391-439).  A throw inside the
extractor is caught at line 436 before anything was pushed for this
response; the date collectors run only after a successful extraction, and
their own throws keep the dates added so far. -/
def pass2Step (doctorMap : List (String × String)) (st : ExtractAccum) (data : Json) :
    ExtractAccum :=
  if truthy data && typeofObject data then
    match extractSlotsFromObject data "" doctorMap with
    | .error _ => st
    | .ok newSlots =>
      { slots := st.slots ++ newSlots, datesSet := (pass2Dates data st.datesSet).1 }
  else st

/-- Both passes over the capture buffer, before normalisation (source lines
340-439).  Only the body of each captured response is semantically
relevant, so the buffer is the list of bodies; text-captured bodies enter
as JSON strings and are skipped by the object checks exactly as in the
source. -/
def extractRawAccum (responses : List Json) : ExtractAccum :=
  responses.foldl (pass2Step (buildDoctorMap responses)) ⟨[], []⟩

/-- The raw extracted slot list, in push order, before deduplication. -/
def rawSlots (responses : List Json) : List AvailabilitySlot :=
  (extractRawAccum responses).slots

/-- The dates collected from available-dates style fields, in insertion
order. -/
def collectedDates (responses : List Json) : List String :=
  (extractRawAccum responses).datesSet

/-- Deduplication keyed on the date-time pair, keeping the first
occurrence: the accumulator holds the keys already emitted.  This is the
source's keep-an-element-iff-it-is-its-own-first-occurrence filter (lines
442-444) written as a single pass. -/
def dedupSlotsAux (seen : List (String × String)) : List AvailabilitySlot → List AvailabilitySlot
  | [] => []
  | s :: rest =>
    if seen.contains (s.date, s.time) then dedupSlotsAux seen rest
    else s :: dedupSlotsAux ((s.date, s.time) :: seen) rest

/-- Deduplicated slots (source lines 442-444). -/
def dedupSlots (slots : List AvailabilitySlot) : List AvailabilitySlot :=
  dedupSlotsAux [] slots

/-- Stable insertion of one element into a sorted prefix. -/
def insertLe {α : Type} (le : α → α → Bool) (x : α) : List α → List α
  | [] => [x]
  | y :: ys => if le y x then y :: insertLe le x ys else x :: y :: ys

/-- Stable sort by a boolean comparison.  `Array.prototype.sort` is
specified stable, and a stable sort of a total preorder is unique, so
insertion sort renders it exactly. -/
def sortByLe {α : Type} (le : α → α → Bool) (l : List α) : List α :=
  l.foldl (fun acc x => insertLe le x acc) []

/-- The slot comparator of source lines 446-449 as a boolean order:
date comparison first, time comparison on equal dates. -/
def slotLe (a b : AvailabilitySlot) : Bool :=
  if a.date = b.date then strLe a.time b.time else strLt a.date b.date

/-- The available-date comparator of source line 475. -/
def availableDateLe (a b : AvailableDate) : Bool :=
  strLe a.date b.date

/-- Creation or in-place update of an own property of the counting object
(ordinary string keys keep insertion order). -/
def ownSet : List (String × JsCount) → String → JsCount → List (String × JsCount)
  | [], d, v => [(d, v)]
  | (k, n) :: rest, d, v =>
    if k = d then (k, v) :: rest else (k, n) :: ownSet rest d v

/-- Own-property lookup in the counting object. -/
def lookupCount (sbd : List (String × JsCount)) (d : String) : Option JsCount :=
  (sbd.find? (fun p => p.1 = d)).map (·.2)

/-- One step of the per-date counting reduce (source lines 453-459),
`if (!acc[d]) acc[d] = 0; acc[d]++`, on a `{}`-backed object.  An own
numeric count is truthy (or zero-initialised) and increments; an own NaN
is falsy, so it is reset to zero and incremented to one; when the key is
absent but names an inherited `Object.prototype` member, the truthy
inherited value skips the initialisation and the increment coerces it to
NaN (stored as an own property, except under the key `__proto__`, whose
inherited setter ignores the numeric write); a genuinely fresh key is
initialised and incremented to one. -/
def bumpDate (acc : List (String × JsCount)) (d : String) : List (String × JsCount) :=
  match lookupCount acc d with
  | some (.nat n) => ownSet acc d (.nat (n + 1))
  | some .nan => ownSet acc d (.nat 1)
  | some (.protoVal _) => ownSet acc d .nan
  | none =>
    if d ∈ objectProtoProps then
      if d = "__proto__" then acc else ownSet acc d .nan
    else ownSet acc d (.nat 1)

/-- Slot counts per date over the sorted slot list (source lines 453-459). -/
def slotsByDate (slots : List AvailabilitySlot) : List (String × JsCount) :=
  slots.foldl (fun acc s => bumpDate acc s.date) []

/-- The property read `slotsByDate[dateStr]` of source line 463: the own
property when present, else the inherited `Object.prototype` member when
the date names one, else `undefined`. -/
def recordRead (sbd : List (String × JsCount)) (d : String) : Option JsCount :=
  match lookupCount sbd d with
  | some v => some v
  | none => if d ∈ objectProtoProps then some (.protoVal d) else none

/-- The `|| 0` fallback of source line 463 under JavaScript truthiness:
zero, NaN and `undefined` fall back to zero; a positive count and a truthy
inherited member pass through. -/
def countOrZero : Option JsCount → JsCount
  | some (.nat n) => .nat n
  | some .nan => .nat 0
  | some (.protoVal s) => .protoVal s
  | none => .nat 0

/-- Assembly of the available-date list before sorting (source lines
452-472): first the collected set with the line-463 read of each date's
count, then the own entries of the counting object for dates not in the
set. -/
def buildAvailableDates (set : List String) (sbd : List (String × JsCount)) :
    List AvailableDate :=
  set.map (fun d => ⟨d, countOrZero (recordRead sbd d)⟩) ++
    (sbd.filter (fun p => !set.contains p.1)).map (fun p => ⟨p.1, p.2⟩)

/-- The full parser `parseAvailabilityFromResponses` (source lines
340-478). -/
def parseAvailabilityFromResponses (responses : List Json) : ParsedAvailability :=
  let st := extractRawAccum responses
  let sortedSlots := sortByLe slotLe (dedupSlots st.slots)
  { slots := sortedSlots
    availableDates :=
      sortByLe availableDateLe (buildAvailableDates st.datesSet (slotsByDate sortedSlots)) }

/-- Prefix test on character lists. -/
def charsBeginWith : List Char → List Char → Bool
  | [], _ => true
  | _ :: _, [] => false
  | a :: as, b :: bs => a = b && charsBeginWith as bs

/-- Substring test on character lists. -/
def charsContain (pat : List Char) : List Char → Bool
  | [] => pat.isEmpty
  | s :: rest => charsBeginWith pat (s :: rest) || charsContain pat rest

/-- Model of `String.prototype.includes`. -/
def jsIncludes (s pat : String) : Bool :=
  charsContain pat.toList s.toList

/-- A captured body: structured JSON, or the raw-text fallback. -/
inductive CapturedBody where
  | json : Json → CapturedBody
  | text : String → CapturedBody
deriving Repr

/-- The content-type test of the capture handler (source line 130). -/
def contentTypeIndicatesJson (contentType : String) : Bool :=
  jsIncludes contentType "application/json" || jsIncludes contentType "text/json"

/-- The body-recording decision of the capture handler (source lines
128-159) for one relevant response, as a function of the content-type
header, the outcome of `response.json()` (`none` when it threw) and the
outcome of `response.text()` (`none` when it threw).  The text fallback
lives in the catch block, so it runs only when the JSON branch threw; a
non-JSON content type leaves the try block without recording anything. -/
def captureRelevantResponse (contentType : String) (jsonParse : Option Json)
    (textRead : Option String) : Option CapturedBody :=
  if contentTypeIndicatesJson contentType then
    match jsonParse with
    | some d => some (.json d)
    | none =>
      match textRead with
      | some t => if t.length > 0 then some (.text t) else none
      | none => none
  else none

/-- The scraper's result record (TypeScript interface `ScrapingResult`,
source lines 16-22).  The untyped rawData payload is kept as a JSON
value. -/
structure ScrapingResult where
  clinic : String
  availableDates : List AvailableDate
  slots : List AvailabilitySlot
  rawData : Option Json
  error : Option String
deriving Repr

/-- The clinic label of every live (non-fallback) result (source lines
319 and 328). -/
def liveClinicLabel : String := "Aspit Clinic"

/-- The synthetic demonstration result returned when browser launch fails
under the Vercel environment flag (source lines 61-84), copied literally. -/
def vercelFallbackResult : ScrapingResult :=
  { clinic := "Aspit Clinic (Demo Mode)"
    availableDates :=
      [⟨"2025-10-23", .nat 3⟩, ⟨"2025-10-24", .nat 2⟩, ⟨"2025-10-25", .nat 4⟩]
    slots :=
      [⟨"2025-10-23", "09:00", some "Dr. Smith"⟩,
       ⟨"2025-10-23", "10:30", some "Dr. Johnson"⟩,
       ⟨"2025-10-23", "14:00", some "Dr. Smith"⟩,
       ⟨"2025-10-24", "11:00", some "Dr. Johnson"⟩,
       ⟨"2025-10-24", "15:30", some "Dr. Smith"⟩,
       ⟨"2025-10-25", "09:30", some "Dr. Johnson"⟩,
       ⟨"2025-10-25", "13:00", some "Dr. Smith"⟩,
       ⟨"2025-10-25", "16:00", some "Dr. Johnson"⟩,
       ⟨"2025-10-25", "17:30", some "Dr. Smith"⟩]
    rawData :=
      some (Json.obj
        [("note", Json.str "Demo data - Playwright not available in Vercel environment")])
    error := none }

/-- The month difference computed by `navigateToMonth` (source lines
482-484), over year and zero-based month numbers. -/
def navMonthsDiff (targetYear targetMonth currentYear currentMonth : Int) : Int :=
  (targetYear - currentYear) * 12 + (targetMonth - currentMonth)

/-- The click plan of `navigateToMonth` (source lines 486-532): `none`
for the immediate return on a zero difference, otherwise the number of
attempted click iterations (each iteration's failures are caught and the
loop continues) and the direction flag `isNext`. -/
def navigateToMonthPlan (targetYear targetMonth currentYear currentMonth : Int) :
    Option (Nat × Bool) :=
  let monthsDiff := navMonthsDiff targetYear targetMonth currentYear currentMonth
  if monthsDiff = 0 then none
  else some (monthsDiff.natAbs, decide (0 < monthsDiff))

/-- The number of click iterations `navigateToMonth` attempts. -/
def navClickAttempts (targetYear targetMonth currentYear currentMonth : Int) : Nat :=
  match navigateToMonthPlan targetYear targetMonth currentYear currentMonth with
  | none => 0
  | some p => p.1

/-- A JSON primitive: not an object and not an array, so pass two's
`typeof data` guard skips it entirely. -/
def isPrimitiveJson : Json → Bool
  | .arr _ => false
  | .obj _ => false
  | _ => true

/-- The specification's notion of a date parseable as a calendar date,
rendered as ISO date syntax, stated from the spec's words for comparison
with what the extractor actually produces. -/
def specParseableCalendarDate (s : String) : Bool :=
  isIsoDateTimeChars s.toList && s.toList.length = 10

/-- The capture body of the specification's end-to-end example: one
Therapists entry and one DurationTimeSlots entry owned by user seven. -/
def specExampleBody : Json :=
  Json.obj
    [("Therapists", Json.arr [Json.obj [("Oid", Json.num 7), ("Name", Json.str "Dr. Lin")]]),
     ("DurationTimeSlots", Json.arr
       [Json.obj
         [("User", Json.num 7),
          ("TimeSlots", Json.arr
            [Json.obj
              [("Start", Json.str "2025-11-03T09:00:00Z"),
               ("TimeSlot", Json.str "09:00")]])]])]

/-- The same example body without the Therapists entry. -/
def specExampleBodyNoTherapists : Json :=
  Json.obj
    [("DurationTimeSlots", Json.arr
       [Json.obj
         [("User", Json.num 7),
          ("TimeSlots", Json.arr
            [Json.obj
              [("Start", Json.str "2025-11-03T09:00:00Z"),
               ("TimeSlot", Json.str "09:00")]])]])]

/-- A body whose available-dates field carries a source-provided count
for a date with no captured slots. -/
def sourceCountBody : Json :=
  Json.obj
    [("AvailableDates", Json.arr
       [Json.obj [("date", Json.str "2025-12-01"), ("count", Json.num 5)]])]

/-- A body whose explicit AvailableSlots entry carries a date string that
is not parseable as a calendar date. -/
def unvalidatedDateBody : Json :=
  Json.obj
    [("AvailableSlots", Json.arr
       [Json.obj [("Date", Json.str "banana"), ("Time", Json.str "09:00")]])]

/-- A deeply nested body containing none of the recognised slot shapes. -/
def nestedUnrelatedBody : Json :=
  Json.obj
    [("a", Json.obj
       [("b", Json.obj
          [("c", Json.arr [Json.num 1, Json.str "x", Json.obj [("d", Json.bool true)]])])])]

/-- A body with a single slot whose date names the inherited member
`constructor` of `Object.prototype`. -/
def protoDateSlotBody : Json :=
  Json.obj
    [("Slots", Json.arr
       [Json.obj [("date", Json.str "constructor"), ("time", Json.str "09:00")]])]

/-- A body with a single slot whose date is the key `__proto__`, which the
counting object cannot store at all. -/
def protoSetterSlotBody : Json :=
  Json.obj
    [("Slots", Json.arr
       [Json.obj [("date", Json.str "__proto__"), ("time", Json.str "09:00")]])]

/-- A body declaring the available date `constructor` with no slots. -/
def protoAvailableDatesBody : Json :=
  Json.obj [("AvailableDates", Json.arr [Json.str "constructor"])]

/-- A body producing two raw slots with the same date-time key and
different doctors, through the Slots branch and its recursive revisit. -/
def duplicateDoctorsBody : Json :=
  Json.obj
    [("Slots", Json.arr
       [Json.obj
         [("date", Json.str "2025-01-01"), ("time", Json.str "09:00"),
          ("doctor", Json.str "A")],
        Json.obj
         [("date", Json.str "2025-01-01"), ("time", Json.str "09:00"),
          ("doctor", Json.str "B")]])]

theorem charToNat_inj {a b : Char} (h : a.toNat = b.toNat) : a = b := by
  cases a; cases b
  simp only [Char.toNat] at h
  congr 1
  exact UInt32.ext h

theorem stringToList_inj {a b : String} (h : a.toList = b.toList) : a = b := by
  cases a; cases b
  simp only [String.toList] at h
  exact congrArg String.mk h

theorem chLt_irrefl (l : List Char) : chLt l l = false := by
  induction l with
  | nil => rfl
  | cons a as ih => simp [chLt, ih]

theorem chLt_trans : ∀ (a b c : List Char),
    chLt a b = true → chLt b c = true → chLt a c = true := by
  intro a
  induction a with
  | nil =>
    intro b c hab hbc
    cases b with
    | nil => simp [chLt] at hab
    | cons y ys =>
      cases c with
      | nil => simp [chLt] at hbc
      | cons z zs => simp [chLt]
  | cons x xs ih =>
    intro b c hab hbc
    cases b with
    | nil => simp [chLt] at hab
    | cons y ys =>
      cases c with
      | nil => simp [chLt] at hbc
      | cons z zs =>
        simp only [chLt] at hab hbc ⊢
        by_cases hxy : x = y
        · subst hxy
          rw [if_pos rfl] at hab
          by_cases hxz : x = z
          · subst hxz
            rw [if_pos rfl] at hbc ⊢
            exact ih ys zs hab hbc
          · rw [if_neg hxz] at hbc ⊢
            exact hbc
        · rw [if_neg hxy] at hab
          by_cases hyz : y = z
          · subst hyz
            rw [if_neg hxy]
            exact hab
          · rw [if_neg hyz] at hbc
            simp only [charLt, decide_eq_true_eq] at hab hbc
            have hxz : x ≠ z := by
              intro he
              subst he
              omega
            rw [if_neg hxz]
            simp only [charLt, decide_eq_true_eq]
            omega

theorem chLt_eq_of_not : ∀ (a b : List Char),
    chLt a b = false → chLt b a = false → a = b := by
  intro a
  induction a with
  | nil =>
    intro b h1 _
    cases b with
    | nil => rfl
    | cons y ys => simp [chLt] at h1
  | cons x xs ih =>
    intro b h1 h2
    cases b with
    | nil => simp [chLt] at h2
    | cons y ys =>
      simp only [chLt] at h1 h2
      by_cases hxy : x = y
      · subst hxy
        rw [if_pos rfl] at h1 h2
        rw [ih ys h1 h2]
      · rw [if_neg hxy] at h1
        rw [if_neg (Ne.symm hxy)] at h2
        simp only [charLt, decide_eq_false_iff_not, not_lt] at h1 h2
        exact absurd (charToNat_inj (Nat.le_antisymm h2 h1)) hxy

theorem strLt_irrefl (a : String) : strLt a a = false :=
  chLt_irrefl a.toList

theorem strLt_trans {a b c : String} (h1 : strLt a b = true) (h2 : strLt b c = true) :
    strLt a c = true :=
  chLt_trans a.toList b.toList c.toList h1 h2

theorem strLt_not_both {a b : String} (h1 : strLt a b = true) (h2 : strLt b a = true) : False := by
  have := strLt_trans h1 h2
  rw [strLt_irrefl] at this
  exact Bool.false_ne_true this

theorem str_eq_of_not_lt {a b : String} (h1 : strLt a b = false) (h2 : strLt b a = false) :
    a = b :=
  stringToList_inj (chLt_eq_of_not a.toList b.toList h1 h2)

theorem strLe_refl (a : String) : strLe a a = true := by
  simp [strLe, strLt_irrefl]

theorem strLe_trans {a b c : String} (h1 : strLe a b = true) (h2 : strLe b c = true) :
    strLe a c = true := by
  simp only [strLe, Bool.not_eq_true'] at h1 h2 ⊢
  rcases Bool.eq_false_or_eq_true (strLt c a) with h | h
  · exfalso
    by_cases hab : strLt a b = true
    · have hcb := strLt_trans h hab
      rw [h2] at hcb
      exact Bool.false_ne_true hcb
    · have hab' : strLt a b = false := by simpa using hab
      have heq : b = a := str_eq_of_not_lt h1 hab'
      rw [heq, h] at h2
      exact absurd h2 (by decide)
  · exact h

theorem strLe_total (a b : String) : strLe a b = true ∨ strLe b a = true := by
  simp only [strLe, Bool.not_eq_true']
  rcases Bool.eq_false_or_eq_true (strLt b a) with h | h
  · rcases Bool.eq_false_or_eq_true (strLt a b) with h' | h'
    · exact (strLt_not_both h' h).elim
    · exact Or.inr h'
  · exact Or.inl h

theorem strLe_of_lt {a b : String} (h : strLt a b = true) : strLe a b = true := by
  simp only [strLe, Bool.not_eq_true']
  rcases Bool.eq_false_or_eq_true (strLt b a) with h' | h'
  · exact (strLt_not_both h h').elim
  · exact h' 

theorem slotLe_trans (a b c : AvailabilitySlot)
    (h1 : slotLe a b = true) (h2 : slotLe b c = true) : slotLe a c = true := by
  simp only [slotLe] at h1 h2 ⊢
  by_cases hab : a.date = b.date
  · by_cases hbc : b.date = c.date
    · rw [if_pos hab] at h1
      rw [if_pos hbc] at h2
      rw [if_pos (hab.trans hbc)]
      exact strLe_trans h1 h2
    · rw [if_neg hbc] at h2
      have hac : a.date ≠ c.date := fun he => hbc (hab ▸ he)
      rw [if_neg hac, hab]
      exact h2
  · by_cases hbc : b.date = c.date
    · rw [if_neg hab] at h1
      have hac : a.date ≠ c.date := fun he => hab (he.trans hbc.symm)
      rw [if_neg hac, ← hbc]
      exact h1
    · rw [if_neg hab] at h1
      rw [if_neg hbc] at h2
      have hac : a.date ≠ c.date := by
        intro he
        exact absurd (strLt_trans h1 h2) (by rw [← he, strLt_irrefl]; exact Bool.false_ne_true)
      rw [if_neg hac]
      exact strLt_trans h1 h2

theorem slotLe_total (a b : AvailabilitySlot) : slotLe a b = true ∨ slotLe b a = true := by
  simp only [slotLe]
  by_cases hab : a.date = b.date
  · rw [if_pos hab, if_pos hab.symm]
    exact strLe_total a.time b.time
  · rw [if_neg hab, if_neg (Ne.symm hab)]
    rcases Bool.eq_false_or_eq_true (strLt a.date b.date) with h | h
    · exact Or.inl h
    · rcases Bool.eq_false_or_eq_true (strLt b.date a.date) with h' | h'
      · exact Or.inr h'
      · exact absurd (str_eq_of_not_lt h h') hab

theorem availableDateLe_trans (a b c : AvailableDate)
    (h1 : availableDateLe a b = true) (h2 : availableDateLe b c = true) :
    availableDateLe a c = true :=
  strLe_trans h1 h2

theorem availableDateLe_total (a b : AvailableDate) :
    availableDateLe a b = true ∨ availableDateLe b a = true :=
  strLe_total a.date b.date

theorem insertLe_perm {α : Type} (le : α → α → Bool) (x : α) (l : List α) :
    (insertLe le x l).Perm (x :: l) := by
  induction l with
  | nil => exact List.Perm.refl _
  | cons y ys ih =>
    simp only [insertLe]
    by_cases h : le y x = true
    · rw [if_pos h]
      exact (ih.cons y).trans (List.Perm.swap x y ys)
    · rw [if_neg h]

theorem mem_insertLe {α : Type} {le : α → α → Bool} {x a : α} {l : List α} :
    a ∈ insertLe le x l ↔ a = x ∨ a ∈ l := by
  simpa [List.mem_cons] using (insertLe_perm le x l).mem_iff

theorem foldl_insertLe_perm {α : Type} (le : α → α → Bool) :
    ∀ (l acc : List α), (l.foldl (fun a x => insertLe le x a) acc).Perm (acc ++ l) := by
  intro l
  induction l with
  | nil => intro acc; simp
  | cons x xs ih =>
    intro acc
    simp only [List.foldl_cons]
    have h1 := ih (insertLe le x acc)
    have h2 : (insertLe le x acc ++ xs).Perm ((x :: acc) ++ xs) :=
      (insertLe_perm le x acc).append_right xs
    exact h1.trans (h2.trans List.perm_middle.symm)

theorem sortByLe_perm {α : Type} (le : α → α → Bool) (l : List α) :
    (sortByLe le l).Perm l := by
  simpa using foldl_insertLe_perm le l []

theorem insertLe_pairwise {α : Type} {le : α → α → Bool}
    (htot : ∀ a b, le a b = true ∨ le b a = true)
    (htrans : ∀ a b c, le a b = true → le b c = true → le a c = true)
    (x : α) (l : List α) (h : l.Pairwise (fun a b => le a b = true)) :
    (insertLe le x l).Pairwise (fun a b => le a b = true) := by
  induction l with
  | nil => simp [insertLe]
  | cons y ys ih =>
    rcases List.pairwise_cons.mp h with ⟨hy, hys⟩
    simp only [insertLe]
    by_cases hle : le y x = true
    · rw [if_pos hle]
      refine List.pairwise_cons.mpr ⟨?_, ih hys⟩
      intro a ha
      rcases mem_insertLe.mp ha with rfl | ha'
      · exact hle
      · exact hy a ha'
    · rw [if_neg hle]
      have hxy : le x y = true := (htot x y).resolve_right hle
      refine List.pairwise_cons.mpr ⟨?_, h⟩
      intro a ha
      rcases List.mem_cons.mp ha with rfl | ha'
      · exact hxy
      · exact htrans x y a hxy (hy a ha')

theorem foldl_insertLe_pairwise {α : Type} {le : α → α → Bool}
    (htot : ∀ a b, le a b = true ∨ le b a = true)
    (htrans : ∀ a b c, le a b = true → le b c = true → le a c = true) :
    ∀ (l acc : List α), acc.Pairwise (fun a b => le a b = true) →
      (l.foldl (fun a x => insertLe le x a) acc).Pairwise (fun a b => le a b = true) := by
  intro l
  induction l with
  | nil => intro acc hacc; exact hacc
  | cons x xs ih =>
    intro acc hacc
    exact ih _ (insertLe_pairwise htot htrans x acc hacc)

theorem sortByLe_pairwise {α : Type} {le : α → α → Bool}
    (htot : ∀ a b, le a b = true ∨ le b a = true)
    (htrans : ∀ a b c, le a b = true → le b c = true → le a c = true)
    (l : List α) :
    (sortByLe le l).Pairwise (fun a b => le a b = true) :=
  foldl_insertLe_pairwise htot htrans l [] (List.Pairwise.nil)

theorem contains_iff_mem {α : Type} [BEq α] [LawfulBEq α] (l : List α) (a : α) :
    l.contains a = true ↔ a ∈ l := by
  simp [List.contains]

theorem dedupSlotsAux_mem :
    ∀ (l : List AvailabilitySlot) (seen : List (String × String)) (s : AvailabilitySlot),
      s ∈ dedupSlotsAux seen l →
        (s.date, s.time) ∉ seen ∧
          l.find? (fun r => r.date == s.date && r.time == s.time) = some s := by
  intro l
  induction l with
  | nil => intro seen s h; simp [dedupSlotsAux] at h
  | cons a rest ih =>
    intro seen s h
    simp only [dedupSlotsAux] at h
    by_cases hc : seen.contains (a.date, a.time) = true
    · rw [if_pos hc] at h
      obtain ⟨hnot, hfind⟩ := ih seen s h
      have hkey : ¬(a.date = s.date ∧ a.time = s.time) := by
        rintro ⟨h1, h2⟩
        exact hnot (h1 ▸ h2 ▸ (contains_iff_mem seen (a.date, a.time)).mp hc)
      refine ⟨hnot, ?_⟩
      rw [List.find?_cons_of_neg, hfind]
      simp only [Bool.and_eq_true, beq_iff_eq]
      exact hkey
    · rw [if_neg hc] at h
      rcases List.mem_cons.mp h with rfl | h'
      · refine ⟨fun hmem => hc ((contains_iff_mem seen (s.date, s.time)).mpr hmem), ?_⟩
        rw [List.find?_cons_of_pos]
        simp
      · obtain ⟨hnot, hfind⟩ := ih _ s h'
        have hne : ¬((s.date, s.time) = (a.date, a.time)) := fun he =>
          hnot (he ▸ List.mem_cons_self _ _)
        have hnot_seen : (s.date, s.time) ∉ seen := fun hm => hnot (List.mem_cons_of_mem _ hm)
        refine ⟨hnot_seen, ?_⟩
        rw [List.find?_cons_of_neg, hfind]
        simp only [Bool.and_eq_true, beq_iff_eq]
        rintro ⟨h1, h2⟩
        exact hne (by rw [h1, h2])

theorem dedupSlotsAux_pairwise :
    ∀ (l : List AvailabilitySlot) (seen : List (String × String)),
      (dedupSlotsAux seen l).Pairwise (fun a b => ¬(a.date = b.date ∧ a.time = b.time)) := by
  intro l
  induction l with
  | nil => intro seen; simp [dedupSlotsAux]
  | cons a rest ih =>
    intro seen
    simp only [dedupSlotsAux]
    by_cases hc : seen.contains (a.date, a.time) = true
    · rw [if_pos hc]
      exact ih seen
    · rw [if_neg hc]
      refine List.pairwise_cons.mpr ⟨?_, ih _⟩
      intro b hb hcontra
      obtain ⟨hnot, _⟩ := dedupSlotsAux_mem rest _ b hb
      exact hnot (by rw [← hcontra.1, ← hcontra.2]; exact List.mem_cons_self _ _)

theorem dedupSlots_find {s : AvailabilitySlot} {l : List AvailabilitySlot}
    (h : s ∈ dedupSlots l) :
    l.find? (fun r => r.date == s.date && r.time == s.time) = some s :=
  (dedupSlotsAux_mem l [] s h).2

theorem dedupSlots_subset {s : AvailabilitySlot} {l : List AvailabilitySlot}
    (h : s ∈ dedupSlots l) : s ∈ l :=
  List.mem_of_find?_eq_some (dedupSlots_find h)

/-- C1: on the specification's end-to-end example body the pipeline does
return one slot for 2025-11-03 at 09:00 with a singleton available-date
entry of count one, but the doctor field is the string User undefined in
both the resolved and the unresolved variant, not Dr. Lin and not User 7:
line 563 of the source reads the User id from the containing object
instead of from the DurationTimeSlots element, so the doctor directory
(built correctly, third conjunct) is consulted with the key undefined. -/
theorem claim1_end_to_end_example_eval :
    parseAvailabilityFromResponses [specExampleBody] =
        ⟨[⟨"2025-11-03", "09:00", some "User undefined"⟩], [⟨"2025-11-03", .nat 1⟩]⟩ ∧
      parseAvailabilityFromResponses [specExampleBodyNoTherapists] =
        ⟨[⟨"2025-11-03", "09:00", some "User undefined"⟩], [⟨"2025-11-03", .nat 1⟩]⟩ ∧
      buildDoctorMap [specExampleBody] = [("7", "Dr. Lin")] ∧
      "User undefined" ≠ "Dr. Lin" ∧ "User undefined" ≠ "User 7" := by
  refine ⟨by decide, by decide, by decide, by decide, by decide⟩

/-- C2: for every capture buffer the returned slot list has pairwise
distinct date-time keys, and each returned slot is literally the first
raw extracted slot carrying its key, so the first-encountered doctor
attribution survives deduplication. -/
theorem claim2_dedup_first_doctor_wins (responses : List Json) :
    (parseAvailabilityFromResponses responses).slots.Pairwise
        (fun a b => ¬(a.date = b.date ∧ a.time = b.time)) ∧
      ∀ s ∈ (parseAvailabilityFromResponses responses).slots,
        (rawSlots responses).find? (fun r => r.date == s.date && r.time == s.time) = some s := by
  constructor
  · have hperm := sortByLe_perm slotLe (dedupSlots (extractRawAccum responses).slots)
    have hpair := dedupSlotsAux_pairwise (extractRawAccum responses).slots []
    exact (hperm.pairwise_iff
      (fun {a b} h hc => h ⟨hc.1.symm, hc.2.symm⟩)).mpr hpair
  · intro s hs
    have hs' : s ∈ dedupSlots (extractRawAccum responses).slots :=
      (sortByLe_perm slotLe (dedupSlots (extractRawAccum responses).slots)).mem_iff.mp hs
    exact dedupSlots_find hs'

/-- Witness for C2 on a buffer whose raw extraction carries two slots with
the same key and doctors A then B: the surviving entry is the first one,
with doctor A. -/
theorem claim2_dedup_first_doctor_wins_witness :
    (rawSlots [duplicateDoctorsBody]).find?
        (fun r => r.date == "2025-01-01" && r.time == "09:00") =
      some ⟨"2025-01-01", "09:00", some "A"⟩ :=
  (claim2_dedup_first_doctor_wins [duplicateDoctorsBody]).2
    ⟨"2025-01-01", "09:00", some "A"⟩ (by decide)

/-- C3: for every capture buffer the returned slot list is sorted
ascending by date and, within equal dates, ascending by time, and the
returned available-date list is sorted ascending by date, all under
lexicographic string comparison. -/
theorem claim3_results_sorted (responses : List Json) :
    (parseAvailabilityFromResponses responses).slots.Pairwise
        (fun a b => strLt a.date b.date = true ∨ (a.date = b.date ∧ strLe a.time b.time = true)) ∧
      (parseAvailabilityFromResponses responses).availableDates.Pairwise
        (fun a b => strLe a.date b.date = true) := by
  constructor
  · have h := sortByLe_pairwise slotLe_total slotLe_trans
      (dedupSlots (extractRawAccum responses).slots)
    refine h.imp ?_
    intro a b hab
    by_cases hd : a.date = b.date
    · exact Or.inr ⟨hd, by simpa [slotLe, hd] using hab⟩
    · exact Or.inl (by simpa [slotLe, hd] using hab)
  · have h := sortByLe_pairwise availableDateLe_total availableDateLe_trans
      (buildAvailableDates (extractRawAccum responses).datesSet
        (slotsByDate (sortByLe slotLe (dedupSlots (extractRawAccum responses).slots))))
    exact h.imp (fun hab => hab)

/-- Counterexample to C6: a relevant response with a non-JSON content
type and a nonempty readable text body records nothing, where the claim
requires the raw text body to be recorded. -/
theorem claim6_counterexample :
    captureRelevantResponse "text/html" none (some "a nonempty body") = none ∧
      captureRelevantResponse "text/html" (some (Json.obj [])) (some "a nonempty body") = none ∧
      "a nonempty body" ≠ "" := by
  exact ⟨rfl, rfl, by decide⟩

/-- C6 as amended: a JSON content type records the parsed body; when that
parse throws, the nonempty text body is recorded instead, and nothing is
recorded when both fail or the text is empty; a non-JSON content type
records nothing at all, with no text fallback. -/
theorem claim6_amended_capture (ct : String) (d : Json) (jp : Option Json)
    (tr : Option String) (s : String) :
    (contentTypeIndicatesJson ct = true →
        captureRelevantResponse ct (some d) tr = some (.json d)) ∧
      (contentTypeIndicatesJson ct = true → s ≠ "" →
        captureRelevantResponse ct none (some s) = some (.text s)) ∧
      (contentTypeIndicatesJson ct = false →
        captureRelevantResponse ct jp tr = none) ∧
      (contentTypeIndicatesJson ct = true →
        captureRelevantResponse ct none none = none) ∧
      (contentTypeIndicatesJson ct = true →
        captureRelevantResponse ct none (some "") = none) := by
  refine ⟨?_, ?_, ?_, ?_, ?_⟩
  · intro h
    simp [captureRelevantResponse, h]
  · intro h hs
    have hlen : 0 < s.length := by
      cases s with
      | mk l =>
        cases l with
        | nil => exact absurd rfl hs
        | cons c cs => simp [String.length]
    simp [captureRelevantResponse, h, hlen]
  · intro h
    simp [captureRelevantResponse, h]
  · intro h
    simp [captureRelevantResponse, h]
  · intro h
    simp [captureRelevantResponse, h]

/-- Witness for C6 as amended: a JSON content type with a good parse, a
JSON content type with a failed parse and readable text, and a non-JSON
content type with readable text. -/
theorem claim6_amended_capture_witness :
    captureRelevantResponse "application/json" (some (Json.obj [])) none =
        some (.json (Json.obj [])) ∧
      captureRelevantResponse "application/json" none (some "raw body") =
        some (.text "raw body") ∧
      captureRelevantResponse "text/html" none (some "raw body") = none := by
  have h := claim6_amended_capture "application/json" (Json.obj []) none none "raw body"
  have h' := claim6_amended_capture "text/html" (Json.obj []) none (some "raw body") "raw body"
  exact ⟨h.1 (by decide), h.2.1 (by decide) (by decide), h'.2.2.1 (by decide)⟩

/-- Counterexample to C7: a buffer whose explicit AvailableSlots entry
carries the date banana produces a final slot whose date is not parseable
as a calendar date. -/
theorem claim7_counterexample :
    parseAvailabilityFromResponses [unvalidatedDateBody] =
        ⟨[⟨"banana", "09:00", none⟩], [⟨"banana", .nat 1⟩]⟩ ∧
      specParseableCalendarDate "banana" = false := by
  exact ⟨by decide, by decide⟩

/-- C7 as amended: normalisation adds no validation, every returned slot
is one of the raw extracted slots, and the explicit-field extraction
branches copy date strings verbatim, so an unparseable date in the source
reaches the returned list unchanged. -/
theorem claim7_amended_slots_are_raw (responses : List Json) :
    ∀ s ∈ (parseAvailabilityFromResponses responses).slots, s ∈ rawSlots responses := by
  intro s hs
  have hs' : s ∈ dedupSlots (extractRawAccum responses).slots :=
    (sortByLe_perm slotLe (dedupSlots (extractRawAccum responses).slots)).mem_iff.mp hs
  exact dedupSlots_subset hs'

/-- Witness for C7 as amended at the banana buffer. -/
theorem claim7_amended_slots_are_raw_witness :
    (⟨"banana", "09:00", none⟩ : AvailabilitySlot) ∈ rawSlots [unvalidatedDateBody] :=
  claim7_amended_slots_are_raw [unvalidatedDateBody] ⟨"banana", "09:00", none⟩ (by decide)

/-- C9: the demonstration fallback returned when browser launch fails in
the Vercel environment has a non-empty slot list, a clinic label different
from the live label and containing the marker Demo, and a rawData note
marking the payload as synthetic demo data. -/
theorem claim9_fallback_is_marked :
    vercelFallbackResult.slots ≠ [] ∧
      vercelFallbackResult.clinic ≠ liveClinicLabel ∧
      jsIncludes vercelFallbackResult.clinic "Demo" = true ∧
      vercelFallbackResult.rawData =
        some (Json.obj
          [("note", Json.str "Demo data - Playwright not available in Vercel environment")]) ∧
      vercelFallbackResult.error = none := by
  exact ⟨by decide, by decide, by decide, rfl, rfl⟩

/-- C10: navigateToMonth's month difference equals the claimed formula,
the loop attempts exactly its absolute value many click iterations, a zero
difference returns immediately with no click plan, and the direction is
forward exactly when the difference is positive. -/
theorem claim10_month_navigation_plan (ty tm cy cm : Int) :
    navMonthsDiff ty tm cy cm = (ty * 12 + tm) - (cy * 12 + cm) ∧
      navClickAttempts ty tm cy cm = (navMonthsDiff ty tm cy cm).natAbs ∧
      (navMonthsDiff ty tm cy cm = 0 → navigateToMonthPlan ty tm cy cm = none) ∧
      (∀ n dir, navigateToMonthPlan ty tm cy cm = some (n, dir) →
        n = (navMonthsDiff ty tm cy cm).natAbs ∧ (dir = true ↔ 0 < navMonthsDiff ty tm cy cm)) := by
  refine ⟨by unfold navMonthsDiff; ring, ?_, ?_, ?_⟩
  · unfold navClickAttempts navigateToMonthPlan
    by_cases h : navMonthsDiff ty tm cy cm = 0
    · simp [h]
    · simp [h]
  · intro h
    simp [navigateToMonthPlan, h]
  · intro n dir h
    by_cases h0 : navMonthsDiff ty tm cy cm = 0
    · simp [navigateToMonthPlan, h0] at h
    · simp [navigateToMonthPlan, h0] at h
      refine ⟨h.1.symm, ?_⟩
      rw [← h.2]
      simp

/-- Witness for C10 two months ahead: a plan of two forward clicks. -/
theorem claim10_month_navigation_plan_witness :
    2 = (navMonthsDiff 2025 10 2025 8).natAbs ∧
      (true = true ↔ 0 < navMonthsDiff 2025 10 2025 8) :=
  (claim10_month_navigation_plan 2025 10 2025 8).2.2.2 2 true (by decide)

theorem foldl_insert_id {α β : Type} (f : β → α → β) (b : α) (hb : ∀ acc, f acc b = acc)
    (init : β) (pre post : List α) :
    (pre ++ b :: post).foldl f init = (pre ++ post).foldl f init := by
  rw [List.foldl_append, List.foldl_append, List.foldl_cons, hb]

theorem buildDoctorMapStep_primitive (dm : List (String × String)) (p : Json)
    (hp : isPrimitiveJson p = true) : buildDoctorMapStep dm p = dm := by
  cases p with
  | null => rfl
  | bool b => simp [buildDoctorMapStep, doctorsSection, Json.getF]
  | num n => simp [buildDoctorMapStep, doctorsSection, Json.getF]
  | str s => simp [buildDoctorMapStep, doctorsSection, Json.getF]
  | arr l => simp [isPrimitiveJson] at hp
  | obj l => simp [isPrimitiveJson] at hp

theorem pass2Step_primitive (dm : List (String × String)) (st : ExtractAccum) (p : Json)
    (hp : isPrimitiveJson p = true) : pass2Step dm st p = st := by
  cases p with
  | null => rfl
  | bool b => simp [pass2Step, typeofObject]
  | num n => simp [pass2Step, typeofObject]
  | str s => simp [pass2Step, typeofObject]
  | arr l => simp [isPrimitiveJson] at hp
  | obj l => simp [isPrimitiveJson] at hp

theorem buildDoctorMapStep_emptyObj (dm : List (String × String)) :
    buildDoctorMapStep dm (Json.obj []) = dm := rfl

theorem pass2Step_emptyObj (dm : List (String × String)) (st : ExtractAccum) :
    pass2Step dm st (Json.obj []) = st := by
  have h : pass2Step dm st (Json.obj []) = ⟨st.slots ++ [], st.datesSet⟩ := rfl
  rw [h, List.append_nil]

theorem buildDoctorMapStep_nested (dm : List (String × String)) :
    buildDoctorMapStep dm nestedUnrelatedBody = dm := rfl

theorem pass2Step_nested (dm : List (String × String)) (st : ExtractAccum) :
    pass2Step dm st nestedUnrelatedBody = st := by
  have h : pass2Step dm st nestedUnrelatedBody = ⟨st.slots ++ [], st.datesSet⟩ := rfl
  rw [h, List.append_nil]

theorem parse_skips_inert (b : Json)
    (h1 : ∀ dm, buildDoctorMapStep dm b = dm)
    (h2 : ∀ dm st, pass2Step dm st b = st)
    (pre post : List Json) :
    parseAvailabilityFromResponses (pre ++ b :: post) =
      parseAvailabilityFromResponses (pre ++ post) := by
  have hdm : buildDoctorMap (pre ++ b :: post) = buildDoctorMap (pre ++ post) :=
    foldl_insert_id buildDoctorMapStep b h1 [] pre post
  have hacc : extractRawAccum (pre ++ b :: post) = extractRawAccum (pre ++ post) := by
    unfold extractRawAccum
    rw [hdm]
    exact foldl_insert_id (pass2Step (buildDoctorMap (pre ++ post))) b (h2 _) ⟨[], []⟩ pre post
  unfold parseAvailabilityFromResponses
  rw [hacc]

/-- C8: inserting into any capture buffer a response whose body is an
empty object, any JSON primitive, or the deeply nested unrelated example
changes nothing in the parsed result, and the extractor returns
successfully with no slots on those bodies under every doctor map and
path, so every error branch during their extraction is unreachable or
locally caught. -/
theorem claim8_malformed_input_resilience (pre post : List Json) (p : Json) :
    (isPrimitiveJson p = true →
        parseAvailabilityFromResponses (pre ++ p :: post) =
          parseAvailabilityFromResponses (pre ++ post)) ∧
      parseAvailabilityFromResponses (pre ++ Json.obj [] :: post) =
        parseAvailabilityFromResponses (pre ++ post) ∧
      parseAvailabilityFromResponses (pre ++ nestedUnrelatedBody :: post) =
        parseAvailabilityFromResponses (pre ++ post) ∧
      (∀ (dm : List (String × String)) (path : String),
        extractSlotsFromObject (Json.obj []) path dm = .ok []) ∧
      (∀ (dm : List (String × String)) (path : String),
        extractSlotsFromObject nestedUnrelatedBody path dm = .ok []) := by
  refine ⟨?_, ?_, ?_, fun dm path => rfl, fun dm path => rfl⟩
  · intro hp
    exact parse_skips_inert p (fun dm => buildDoctorMapStep_primitive dm p hp)
      (fun dm st => pass2Step_primitive dm st p hp) pre post
  · exact parse_skips_inert (Json.obj []) buildDoctorMapStep_emptyObj pass2Step_emptyObj pre post
  · exact parse_skips_inert nestedUnrelatedBody buildDoctorMapStep_nested pass2Step_nested pre post

/-- Witness for C8 at a concrete buffer: a numeric primitive inserted
between two empty-object responses changes nothing. -/
theorem claim8_malformed_input_resilience_witness :
    parseAvailabilityFromResponses [Json.obj [], Json.num 5, Json.obj []] =
      parseAvailabilityFromResponses [Json.obj [], Json.obj []] :=
  (claim8_malformed_input_resilience [Json.obj []] [Json.obj []] (Json.num 5)).1 (by decide)

theorem lookupCount_ownSet_self (acc : List (String × JsCount)) (d : String) (v : JsCount) :
    lookupCount (ownSet acc d v) d = some v := by
  induction acc with
  | nil => simp [ownSet, lookupCount, List.find?]
  | cons kv rest ih =>
    obtain ⟨k, n⟩ := kv
    simp only [ownSet]
    by_cases h : k = d
    · rw [if_pos h]
      subst h
      simp [lookupCount, List.find?]
    · rw [if_neg h]
      simpa [lookupCount, List.find?, h] using ih

theorem lookupCount_ownSet_other (acc : List (String × JsCount)) (d e : String) (v : JsCount)
    (h : e ≠ d) : lookupCount (ownSet acc d v) e = lookupCount acc e := by
  induction acc with
  | nil => simp [ownSet, lookupCount, List.find?, Ne.symm h]
  | cons kv rest ih =>
    obtain ⟨k, n⟩ := kv
    simp only [ownSet]
    by_cases hk : k = d
    · rw [if_pos hk]
      subst hk
      have hke : ¬(k = e) := fun he => h he.symm
      simp [lookupCount, List.find?, hke]
    · rw [if_neg hk]
      by_cases hke : k = e
      · subst hke
        simp [lookupCount, List.find?]
      · simpa [lookupCount, List.find?, hke] using ih

theorem lookupCount_bumpDate_other (acc : List (String × JsCount)) (d e : String) (h : e ≠ d) :
    lookupCount (bumpDate acc d) e = lookupCount acc e := by
  unfold bumpDate
  cases hl : lookupCount acc d with
  | some v => cases v <;> exact lookupCount_ownSet_other acc d e _ h
  | none =>
    by_cases hp : d ∈ objectProtoProps
    · rw [if_pos hp]
      by_cases hpp : d = "__proto__"
      · rw [if_pos hpp]
      · rw [if_neg hpp]
        exact lookupCount_ownSet_other acc d e _ h
    · rw [if_neg hp]
      exact lookupCount_ownSet_other acc d e _ h

theorem lookupCount_bumpDate_self_nat (acc : List (String × JsCount)) (d : String) (n : Nat)
    (h : lookupCount acc d = some (.nat n)) :
    lookupCount (bumpDate acc d) d = some (.nat (n + 1)) := by
  unfold bumpDate
  rw [h]
  exact lookupCount_ownSet_self acc d _

theorem lookupCount_bumpDate_self_fresh (acc : List (String × JsCount)) (d : String)
    (hd : d ∉ objectProtoProps) (h : lookupCount acc d = none) :
    lookupCount (bumpDate acc d) d = some (.nat 1) := by
  unfold bumpDate
  rw [h]
  simp only []
  rw [if_neg hd]
  exact lookupCount_ownSet_self acc d _

theorem ownSet_keys_sub (acc : List (String × JsCount)) (d : String) (v : JsCount) :
    ∀ x ∈ (ownSet acc d v).map Prod.fst, x ∈ acc.map Prod.fst ∨ x = d := by
  induction acc with
  | nil => simp [ownSet]
  | cons kv rest ih =>
    obtain ⟨k, n⟩ := kv
    simp only [ownSet]
    by_cases hk : k = d
    · rw [if_pos hk]
      intro x hx
      simp only [List.map_cons, List.mem_cons] at hx ⊢
      exact Or.inl hx
    · rw [if_neg hk]
      intro x hx
      simp only [List.map_cons, List.mem_cons] at hx ⊢
      rcases hx with h | h
      · exact Or.inl (Or.inl h)
      · rcases ih x h with h' | h'
        · exact Or.inl (Or.inr h')
        · exact Or.inr h'

theorem ownSet_keys_nodup (acc : List (String × JsCount)) (d : String) (v : JsCount)
    (h : (acc.map Prod.fst).Nodup) : ((ownSet acc d v).map Prod.fst).Nodup := by
  induction acc with
  | nil => simp [ownSet]
  | cons kv rest ih =>
    obtain ⟨k, n⟩ := kv
    simp only [ownSet]
    by_cases hk : k = d
    · rw [if_pos hk]
      simpa using h
    · rw [if_neg hk]
      simp only [List.map_cons, List.nodup_cons] at h ⊢
      obtain ⟨hknot, hrest⟩ := h
      refine ⟨?_, ih hrest⟩
      intro hmem
      rcases ownSet_keys_sub rest d v k hmem with h' | h'
      · exact hknot h'
      · exact hk h'

theorem bumpDate_keys_nodup (acc : List (String × JsCount)) (d : String)
    (h : (acc.map Prod.fst).Nodup) : ((bumpDate acc d).map Prod.fst).Nodup := by
  unfold bumpDate
  cases hl : lookupCount acc d with
  | some v => cases v <;> exact ownSet_keys_nodup acc d _ h
  | none =>
    by_cases hp : d ∈ objectProtoProps
    · rw [if_pos hp]
      by_cases hpp : d = "__proto__"
      · rw [if_pos hpp]
        exact h
      · rw [if_neg hpp]
        exact ownSet_keys_nodup acc d _ h
    · rw [if_neg hp]
      exact ownSet_keys_nodup acc d _ h

theorem slotsByDate_keys_nodup_aux :
    ∀ (slots : List AvailabilitySlot) (acc : List (String × JsCount)),
      (acc.map Prod.fst).Nodup →
        ((slots.foldl (fun a s => bumpDate a s.date) acc).map Prod.fst).Nodup := by
  intro slots
  induction slots with
  | nil => intro acc h; exact h
  | cons s rest ih =>
    intro acc h
    exact ih (bumpDate acc s.date) (bumpDate_keys_nodup acc s.date h)

theorem slotsByDate_keys_nodup (slots : List AvailabilitySlot) :
    ((slotsByDate slots).map Prod.fst).Nodup :=
  slotsByDate_keys_nodup_aux slots [] (by simp)

theorem lookupCount_foldl_bump_nat (d : String) :
    ∀ (slots : List AvailabilitySlot) (acc : List (String × JsCount)) (n : Nat),
      lookupCount acc d = some (.nat n) →
        lookupCount (slots.foldl (fun a s => bumpDate a s.date) acc) d =
          some (.nat (n + slots.countP (fun s => s.date == d))) := by
  intro slots
  induction slots with
  | nil => intro acc n h; simpa using h
  | cons s rest ih =>
    intro acc n h
    simp only [List.foldl_cons]
    by_cases hd : s.date = d
    · rw [hd]
      rw [ih (bumpDate acc d) (n + 1) (lookupCount_bumpDate_self_nat acc d n h)]
      simp only [List.countP_cons, hd, beq_self_eq_true, if_pos, Option.some.injEq,
        JsCount.nat.injEq]
      omega
    · have hb : lookupCount (bumpDate acc s.date) d = some (.nat n) := by
        rw [lookupCount_bumpDate_other acc s.date d (fun he => hd he.symm)]
        exact h
      rw [ih _ n hb]
      simp [List.countP_cons, hd]

theorem lookupCount_foldl_bump_none (d : String) (hd : d ∉ objectProtoProps) :
    ∀ (slots : List AvailabilitySlot) (acc : List (String × JsCount)),
      lookupCount acc d = none →
        lookupCount (slots.foldl (fun a s => bumpDate a s.date) acc) d =
          (if slots.countP (fun s => s.date == d) = 0 then none
           else some (.nat (slots.countP (fun s => s.date == d)))) := by
  intro slots
  induction slots with
  | nil => intro acc h; simpa using h
  | cons s rest ih =>
    intro acc h
    simp only [List.foldl_cons]
    by_cases hdd : s.date = d
    · rw [hdd]
      rw [lookupCount_foldl_bump_nat d rest (bumpDate acc d) 1
        (lookupCount_bumpDate_self_fresh acc d hd h)]
      simp only [List.countP_cons, hdd, beq_self_eq_true, if_pos]
      rw [if_neg (by omega)]
      simp only [Option.some.injEq, JsCount.nat.injEq]
      omega
    · have hb : lookupCount (bumpDate acc s.date) d = none := by
        rw [lookupCount_bumpDate_other acc s.date d (fun he => hdd he.symm)]
        exact h
      rw [ih _ hb]
      simp [List.countP_cons, hdd]


theorem setAdd_nodup (set : List String) (s : String) (h : set.Nodup) : (setAdd set s).Nodup := by
  unfold setAdd
  by_cases hc : set.contains s = true
  · rw [if_pos hc]
    exact h
  · rw [if_neg hc]
    have hns : s ∉ set := fun hm => hc ((contains_iff_mem set s).mpr hm)
    simp [List.nodup_append, h, hns]

theorem addDateItems_nodup :
    ∀ (items : List Json) (set : List String), set.Nodup → (addDateItems set items).Nodup := by
  intro items
  induction items with
  | nil => intro set h; exact h
  | cons item rest ih =>
    intro set h
    simp only [addDateItems]
    apply ih
    cases item with
    | null => exact h
    | bool b =>
      simp only [Json.getF, asTruthyStr]
      split <;> exact h
    | num n =>
      simp only [Json.getF, asTruthyStr]
      split <;> exact h
    | str s => exact setAdd_nodup set s h
    | arr l =>
      simp only [Json.getF, asTruthyStr, truthy]
      exact h
    | obj fields =>
      simp only [truthy, if_pos]
      cases hA : asTruthyStr (Json.getF (Json.obj fields) "date") with
      | none => simpa [hA] using h
      | some dd => simpa [hA] using setAdd_nodup set dd h

theorem addSlotDates_nodup :
    ∀ (items : List Json) (set : List String), set.Nodup → (addSlotDates set items).1.Nodup := by
  intro items
  induction items with
  | nil => intro set h; exact h
  | cons s rest ih =>
    intro set h
    cases s with
    | null => exact h
    | bool b => exact ih set h
    | num n => exact ih set h
    | str t => exact ih set h
    | arr l => exact ih set h
    | obj fields =>
      simp only [addSlotDates]
      cases hA : asTruthyStr ((Json.obj fields).getF "Date") with
      | none =>
        cases hB : asTruthyStr ((Json.obj fields).getF "date") with
        | none => exact ih set h
        | some d2 => exact ih _ (setAdd_nodup set d2 h)
      | some d1 =>
        cases hB : asTruthyStr ((Json.obj fields).getF "date") with
        | none => exact ih _ (setAdd_nodup set d1 h)
        | some d2 => exact ih _ (setAdd_nodup (setAdd set d1) d2 (setAdd_nodup set d1 h))

theorem addSlotDatesUpper_nodup :
    ∀ (items : List Json) (set : List String), set.Nodup →
      (addSlotDatesUpper set items).1.Nodup := by
  intro items
  induction items with
  | nil => intro set h; exact h
  | cons s rest ih =>
    intro set h
    cases s with
    | null => exact h
    | bool b => exact ih set h
    | num n => exact ih set h
    | str t => exact ih set h
    | arr l => exact ih set h
    | obj fields =>
      simp only [addSlotDatesUpper]
      cases hA : asTruthyStr ((Json.obj fields).getF "Date") with
      | none => exact ih set h
      | some d1 => exact ih _ (setAdd_nodup set d1 h)

theorem collectDateFields_nodup (data : Json) (set : List String) (h : set.Nodup) :
    (collectDateFields data set).Nodup := by
  unfold collectDateFields
  have hstep : ∀ (names : List String) (st : List String), st.Nodup →
      (names.foldl
        (fun st f =>
          match data.getF f with
          | some (.arr items) => addDateItems st items
          | _ => st) st).Nodup := by
    intro names
    induction names with
    | nil => intro st hst; exact hst
    | cons f rest ih =>
      intro st hst
      simp only [List.foldl_cons]
      apply ih
      cases hv : data.getF f with
      | none => exact hst
      | some v =>
        cases v with
        | arr items => exact addDateItems_nodup items st hst
        | null => exact hst
        | bool b => exact hst
        | num n => exact hst
        | str t => exact hst
        | obj fs => exact hst
  exact hstep dateFieldNames set h

theorem pass2Dates_nodup (data : Json) (set : List String) (h : set.Nodup) :
    (pass2Dates data set).1.Nodup := by
  have h1 : (collectDateFields data set).Nodup := collectDateFields_nodup data set h
  unfold pass2Dates
  simp only []
  have h2 : (match data.getF "AvailableSlots" with
      | some (.arr items) => addSlotDates (collectDateFields data set) items
      | _ => (collectDateFields data set, false)).1.Nodup := by
    cases hv : data.getF "AvailableSlots" with
    | none => exact h1
    | some v =>
      cases v with
      | arr items => exact addSlotDates_nodup items _ h1
      | null => exact h1
      | bool b => exact h1
      | num n => exact h1
      | str t => exact h1
      | obj fs => exact h1
  generalize hR : (match data.getF "AvailableSlots" with
      | some (.arr items) => addSlotDates (collectDateFields data set) items
      | _ => (collectDateFields data set, false)) = r at h2 ⊢
  by_cases hflag : r.2 = true
  · rw [if_pos hflag]
    exact h2
  · rw [if_neg hflag]
    cases hd : data.getF "Data" with
    | none => exact h2
    | some dv =>
      simp only []
      by_cases htr : truthy dv = true
      · rw [if_pos htr]
        cases hav : dv.getF "AvailableSlots" with
        | none => exact h2
        | some av =>
          simp only []
          by_cases htav : truthy av = true
          · rw [if_pos htav]
            cases av with
            | arr items => exact addSlotDatesUpper_nodup items r.1 h2
            | str t => exact h2
            | null => exact h2
            | bool b => exact h2
            | num n => exact h2
            | obj fs => exact h2
          · rw [if_neg htav]
            exact h2
      · rw [if_neg htr]
        exact h2

theorem extractRawAccum_datesSet_nodup (responses : List Json) :
    (extractRawAccum responses).datesSet.Nodup := by
  unfold extractRawAccum
  have hstep : ∀ (rs : List Json) (dm : List (String × String)) (st : ExtractAccum),
      st.datesSet.Nodup → ((rs.foldl (pass2Step dm) st).datesSet).Nodup := by
    intro rs
    induction rs with
    | nil => intro dm st h; exact h
    | cons r rest ih =>
      intro dm st h
      simp only [List.foldl_cons]
      apply ih
      unfold pass2Step
      by_cases hg : (truthy r && typeofObject r) = true
      · rw [if_pos hg]
        cases he : extractSlotsFromObject r "" dm with
        | error e => exact h
        | ok newSlots => exact pass2Dates_nodup r st.datesSet h
      · rw [if_neg hg]
        exact h
  exact hstep responses _ ⟨[], []⟩ (by simp)
theorem lookupCount_eq_none (sbd : List (String × JsCount)) (d : String)
    (h : d ∉ sbd.map Prod.fst) : lookupCount sbd d = none := by
  have hfind : sbd.find? (fun p => p.1 = d) = none := by
    apply List.find?_eq_none.mpr
    intro p hp hpd
    exact h (List.mem_map.mpr ⟨p, hp, by simpa using hpd⟩)
  simp [lookupCount, hfind]

theorem lookupCount_cons_self (k : String) (c : JsCount) (rest : List (String × JsCount)) :
    lookupCount ((k, c) :: rest) k = some c := by
  simp [lookupCount, List.find?]

theorem lookupCount_cons_other (k : String) (c : JsCount) (rest : List (String × JsCount))
    (d : String) (h : k ≠ d) : lookupCount ((k, c) :: rest) d = lookupCount rest d := by
  simp [lookupCount, List.find?, h]

theorem filter_map_setList (sbd : List (String × JsCount)) (d : String) :
    ∀ (set : List String), set.Nodup →
      ((set.map fun x => (⟨x, countOrZero (recordRead sbd x)⟩ : AvailableDate)).filter
          (fun e => e.date = d)) =
        if d ∈ set then [(⟨d, countOrZero (recordRead sbd d)⟩ : AvailableDate)] else [] := by
  intro set
  induction set with
  | nil => intro _; simp
  | cons x rest ih =>
    intro h
    rcases List.nodup_cons.mp h with ⟨hx, hrest⟩
    simp only [List.map_cons, List.filter_cons]
    by_cases hxd : x = d
    · subst hxd
      rw [ih hrest, if_neg hx]
      simp
    · rw [ih hrest]
      have hhead :
          (decide ((⟨x, countOrZero (recordRead sbd x)⟩ : AvailableDate).date = d)) = false := by
        simp [hxd]
      rw [hhead]
      simp only [Bool.false_eq_true, if_false]
      simp [List.mem_cons, Ne.symm hxd]

theorem filter_sbdPart (set : List String) (d : String) :
    ∀ (sbd : List (String × JsCount)), (sbd.map Prod.fst).Nodup →
      (((sbd.filter (fun p => !set.contains p.1)).map
          (fun p => (⟨p.1, p.2⟩ : AvailableDate))).filter (fun e => e.date = d)) =
        if d ∈ set then []
        else
          match lookupCount sbd d with
          | some c => [(⟨d, c⟩ : AvailableDate)]
          | none => [] := by
  intro sbd
  induction sbd with
  | nil =>
    intro _
    by_cases hd : d ∈ set <;> simp [hd, lookupCount]
  | cons kv rest ih =>
    intro h
    obtain ⟨k, c⟩ := kv
    simp only [List.map_cons, List.nodup_cons] at h
    obtain ⟨hknot, hrest⟩ := h
    simp only [List.filter_cons]
    by_cases hq : (!set.contains (k, c).1) = true
    · rw [if_pos hq]
      have hkset : k ∉ set := by
        intro hm
        rw [(contains_iff_mem set k).mpr hm] at hq
        simp at hq
      simp only [List.map_cons, List.filter_cons]
      by_cases hkd : k = d
      · subst hkd
        have hhead : (decide ((⟨(k, c).1, (k, c).2⟩ : AvailableDate).date = k)) = true := by simp
        rw [hhead]
        rw [ih hrest, if_neg hkset]
        have hlook : lookupCount rest k = none := lookupCount_eq_none rest k hknot
        rw [hlook, lookupCount_cons_self]
        simp [hkset]
      · have hhead : (decide ((⟨(k, c).1, (k, c).2⟩ : AvailableDate).date = d)) = false := by
          simp [hkd]
        rw [hhead]
        simp only [Bool.false_eq_true, if_false]
        rw [ih hrest, lookupCount_cons_other k c rest d hkd]
    · rw [if_neg hq]
      rw [ih hrest]
      have hkset : k ∈ set := by
        rcases Bool.eq_false_or_eq_true (set.contains k) with ht | hf
        · exact (contains_iff_mem set k).mp ht
        · rw [hf] at hq
          simp at hq
      by_cases hd_set : d ∈ set
      · simp [hd_set]
      · have hkd : k ≠ d := fun he => hd_set (he ▸ hkset)
        rw [if_neg hd_set, if_neg hd_set, lookupCount_cons_other k c rest d hkd]

theorem buildAvailableDates_filter (set : List String) (sbd : List (String × JsCount))
    (d : String) (hset : set.Nodup) (hsbd : (sbd.map Prod.fst).Nodup) :
    (buildAvailableDates set sbd).filter (fun e => e.date = d) =
      if d ∈ set then [(⟨d, countOrZero (recordRead sbd d)⟩ : AvailableDate)]
      else
        match lookupCount sbd d with
        | some c => [(⟨d, c⟩ : AvailableDate)]
        | none => [] := by
  unfold buildAvailableDates
  rw [List.filter_append, filter_map_setList sbd d set hset, filter_sbdPart set d sbd hsbd]
  by_cases hd : d ∈ set
  · simp [hd]
  · simp [hd]

theorem sorted_filter_singleton (l : List AvailableDate) (le : AvailableDate → AvailableDate → Bool)
    (p : AvailableDate → Bool) (x : AvailableDate) (h : l.filter p = [x]) :
    (sortByLe le l).filter p = [x] := by
  have hp := (sortByLe_perm le l).filter p
  rw [h] at hp
  exact List.perm_singleton.mp hp

/-- Counterexample to C4: the `{}`-backed counting object inherits
`Object.prototype`.  A single slot dated `constructor` skips the zero
initialisation (the inherited member is truthy) and stores NaN, so the
returned entry's count is NaN while the slot count is one; a slot dated
`__proto__` cannot be stored at all (the inherited setter ignores the
write), so that date gets no available-date entry whatsoever. -/
theorem claim4_counterexample :
    parseAvailabilityFromResponses [protoDateSlotBody] =
        ⟨[⟨"constructor", "09:00", none⟩], [⟨"constructor", JsCount.nan⟩]⟩ ∧
      JsCount.nan ≠ JsCount.nat 1 ∧
      parseAvailabilityFromResponses [protoSetterSlotBody] =
        ⟨[⟨"__proto__", "09:00", none⟩], []⟩ := by
  refine ⟨by decide, by decide, by decide⟩

/-- C4 as amended: for every capture buffer and every date in the
returned slot list that does not collide with an `Object.prototype`
property name, the returned available-date list has exactly one entry
with that date, and its count is the number of returned slots on that
date. -/
theorem claim4_amended_count_consistency (responses : List Json) (d : String)
    (hproto : d ∉ objectProtoProps)
    (hd : d ∈ (parseAvailabilityFromResponses responses).slots.map (fun s => s.date)) :
    (parseAvailabilityFromResponses responses).availableDates.filter (fun e => e.date = d) =
      [⟨d, .nat ((parseAvailabilityFromResponses responses).slots.filter
          (fun s => s.date = d)).length⟩] := by
  have hslots : (parseAvailabilityFromResponses responses).slots =
      sortByLe slotLe (dedupSlots (extractRawAccum responses).slots) := rfl
  have hdates : (parseAvailabilityFromResponses responses).availableDates =
      sortByLe availableDateLe
        (buildAvailableDates (extractRawAccum responses).datesSet
          (slotsByDate (sortByLe slotLe (dedupSlots (extractRawAccum responses).slots)))) := rfl
  rw [hslots] at hd
  rw [hdates, hslots]
  set S := sortByLe slotLe (dedupSlots (extractRawAccum responses).slots) with hS
  set setL := (extractRawAccum responses).datesSet with hsetL
  have hpos : S.countP (fun s => s.date == d) ≠ 0 := by
    rcases List.mem_map.mp hd with ⟨s, hsmem, hsdate⟩
    have h0 : 0 < S.countP (fun s => s.date == d) :=
      List.countP_pos_iff.mpr ⟨s, hsmem, by simp [hsdate]⟩
    omega
  have hlookup : lookupCount (slotsByDate S) d =
      some (.nat (S.countP (fun s => s.date == d))) := by
    have h := lookupCount_foldl_bump_none d hproto S [] rfl
    rw [if_neg hpos] at h
    simpa [slotsByDate] using h
  have hread : countOrZero (recordRead (slotsByDate S) d) =
      .nat (S.countP (fun s => s.date == d)) := by
    unfold recordRead
    rw [hlookup]
    rfl
  have hset_nodup : setL.Nodup := extractRawAccum_datesSet_nodup responses
  have hsbd_nodup := slotsByDate_keys_nodup S
  have hfilter := buildAvailableDates_filter setL (slotsByDate S) d hset_nodup hsbd_nodup
  have hsingle : (buildAvailableDates setL (slotsByDate S)).filter (fun e => e.date = d) =
      [⟨d, .nat (S.countP (fun s => s.date == d))⟩] := by
    rw [hfilter, hlookup]
    by_cases hmem : d ∈ setL
    · rw [if_pos hmem, hread]
    · rw [if_neg hmem]
  rw [sorted_filter_singleton _ availableDateLe _ _ hsingle]
  have hpred : (fun s : AvailabilitySlot => s.date == d) = (fun s => decide (s.date = d)) := by
    funext s
    by_cases h : s.date = d <;> simp [h]
  rw [hpred, S.countP_eq_length_filter]

/-- Witness for C4 as amended at a concrete buffer with one returned
slot on an ordinary date. -/
theorem claim4_amended_count_consistency_witness :
    (parseAvailabilityFromResponses [duplicateDoctorsBody]).availableDates.filter
        (fun e => e.date = "2025-01-01") =
      [⟨"2025-01-01", .nat ((parseAvailabilityFromResponses
          [duplicateDoctorsBody]).slots.filter
          (fun s => s.date = "2025-01-01")).length⟩] :=
  claim4_amended_count_consistency [duplicateDoctorsBody] "2025-01-01" (by decide) (by decide)

/-- Counterexample to C5: the source supplies count five for the date
2025-12-01 with no captured slot, but the parser returns that date with
count zero, never reading the source count; and the declared available
date `constructor` with no slots gets the inherited `Object.prototype`
member as its count through the line-463 read, not zero. -/
theorem claim5_counterexample :
    parseAvailabilityFromResponses [sourceCountBody] = ⟨[], [⟨"2025-12-01", .nat 0⟩]⟩ ∧
      sourceCountBody.getF "AvailableDates" =
        some (Json.arr [Json.obj [("date", Json.str "2025-12-01"), ("count", Json.num 5)]]) ∧
      (⟨"2025-12-01", .nat 5⟩ : AvailableDate) ∉
        (parseAvailabilityFromResponses [sourceCountBody]).availableDates ∧
      parseAvailabilityFromResponses [protoAvailableDatesBody] =
        ⟨[], [⟨"constructor", JsCount.protoVal "constructor"⟩]⟩ ∧
      JsCount.protoVal "constructor" ≠ JsCount.nat 0 := by
  refine ⟨by decide, rfl, by decide, by decide, by decide⟩

/-- C5 as amended: every collected available-date that matches no
returned slot and does not collide with an `Object.prototype` property
name appears in the returned available-date list exactly once, always
with count zero; the parser never reads a source-provided count, and a
prototype-named date instead passes the inherited member through as its
count. -/
theorem claim5_amended_zero_count (responses : List Json) (d : String)
    (hproto : d ∉ objectProtoProps)
    (h1 : d ∈ collectedDates responses)
    (h2 : d ∉ (parseAvailabilityFromResponses responses).slots.map (fun s => s.date)) :
    (parseAvailabilityFromResponses responses).availableDates.filter (fun e => e.date = d) =
      [⟨d, .nat 0⟩] := by
  have hslots : (parseAvailabilityFromResponses responses).slots =
      sortByLe slotLe (dedupSlots (extractRawAccum responses).slots) := rfl
  have hdates : (parseAvailabilityFromResponses responses).availableDates =
      sortByLe availableDateLe
        (buildAvailableDates (extractRawAccum responses).datesSet
          (slotsByDate (sortByLe slotLe (dedupSlots (extractRawAccum responses).slots)))) := rfl
  rw [hslots] at h2
  rw [hdates]
  set S := sortByLe slotLe (dedupSlots (extractRawAccum responses).slots) with hS
  set setL := (extractRawAccum responses).datesSet with hsetL
  have hmem : d ∈ setL := h1
  have hcnt : S.countP (fun s => s.date == d) = 0 := by
    apply List.countP_eq_zero.mpr
    intro s hs hp
    exact h2 (List.mem_map.mpr ⟨s, hs, by simpa using hp⟩)
  have hlookup : lookupCount (slotsByDate S) d = none := by
    have h := lookupCount_foldl_bump_none d hproto S [] rfl
    rw [if_pos hcnt] at h
    simpa [slotsByDate] using h
  have hread : countOrZero (recordRead (slotsByDate S) d) = .nat 0 := by
    unfold recordRead
    rw [hlookup]
    simp only []
    rw [if_neg hproto]
    rfl
  have hset_nodup : setL.Nodup := extractRawAccum_datesSet_nodup responses
  have hsbd_nodup := slotsByDate_keys_nodup S
  have hfilter := buildAvailableDates_filter setL (slotsByDate S) d hset_nodup hsbd_nodup
  have hsingle : (buildAvailableDates setL (slotsByDate S)).filter (fun e => e.date = d) =
      [⟨d, .nat 0⟩] := by
    rw [hfilter, if_pos hmem, hread]
  exact sorted_filter_singleton _ availableDateLe _ _ hsingle

/-- Witness for C5 as amended at the source-count buffer. -/
theorem claim5_amended_zero_count_witness :
    (parseAvailabilityFromResponses [sourceCountBody]).availableDates.filter
        (fun e => e.date = "2025-12-01") = [⟨"2025-12-01", .nat 0⟩] :=
  claim5_amended_zero_count [sourceCountBody] "2025-12-01" (by decide) (by decide) (by decide)
